import Mathlib

/-!
Verification development for the `zc.table` field-column module
(`src/zc/table/fieldcolumn.py`).

The Python module is shallowly embedded below:

* Python 2 byte strings are Lean `String`s whose characters are assumed to be
  code points below 256 where byte-level reasoning (base64) matters.
* The mutable world touched by the module — the items' stored field values and
  the formatter's request-scoped annotation mapping — is an explicit state
  record `St` that is threaded through the embedded operations.  `St` also
  carries a ghost log of the `set()` calls performed, so frame conditions
  ("no field mutation happened") can be stated exactly.
* Widgets are external collaborators: a widget is a record of the observations
  the module makes of it (`hasInput`, the validated input value or the
  validation error, display-only flag, rendered-value override, name prefix)
  plus an abstract rendering function.  The formatter carries the external
  widget-resolution environment (the multi-adapter lookup and the custom
  widget factory), so `getInputWidget`'s branch structure is kept.
* Python `dict`s used as value mappings are embedded as `String → Option α`;
  the `data.get(id, self)` sentinel pattern of `update()` becomes the `Option`
  layer (`none` = the sentinel "absent", `some v` = a supplied value, so a
  supplied Python `None` is `some Value.vnone`, distinct from absence).
-/

namespace ZcTable

/-- A Python value as far as this module observes it: field values can be
`None`, booleans, integers or strings; equality is Python `==`/`!=` between
such values. -/
inductive Value where
  | vnone : Value
  | vbool : Bool → Value
  | vint : Int → Value
  | vstr : String → Value
  deriving DecidableEq

/-- An opaque row-model object.  The module only observes `str(item)` (for id
derivation) and uses the item as the target of field `get`/`set`, so an item
is embedded as its string conversion; distinct items are distinct values. -/
structure Item where
  itemRepr : String
  deriving DecidableEq

/-- `zope.app.form.interfaces.WidgetInputError`, as far as this module
observes it: an opaque error payload. -/
structure WidgetInputError where
  payload : String
  deriving DecidableEq

/-- `zope.app.form.interfaces.WidgetsError`: the aggregate error raised by
`FieldColumn.input`, bundling the collected per-item errors. -/
structure WidgetsError where
  errors : List WidgetInputError
  deriving DecidableEq

/-- An external widget, embedded as the record of observations the module
makes of it.  `hasInput` is `widget.hasInput()`, `inputValue` the outcome of
`widget.getInputValue()` (validation failure = `Except.error`), `isDisplay`
is `IDisplayWidget.providedBy(widget)`, `renderedValue` the value installed
by `setRenderedValue` (if any), `widgetPfx` the prefix installed by
`setPrefix`, and `renderFn` the external rendering of the widget as a
function of its rendered-value override. -/
structure Widget where
  hasInput : Bool
  inputValue : Except WidgetInputError Value
  isDisplay : Bool
  renderedValue : Option Value
  widgetPfx : String
  renderFn : Option Value → String

/-- `widget.setPrefix(p)`. -/
def Widget.setPfx (w : Widget) (p : String) : Widget := { w with widgetPfx := p }

/-- `widget.setRenderedValue(v)`. -/
def Widget.setRenderedValue (w : Widget) (v : Value) : Widget :=
  { w with renderedValue := some v }

/-- `widget()`: render the widget to markup. -/
def Widget.callRender (w : Widget) : String := w.renderFn w.renderedValue

/-- The request: exposes `form`, the mapping of submitted field names to
values.  Only key membership is observed by this module. -/
structure Request where
  form : List (String × String)

/-- The formatter: request, prefix (the Python attribute is named `prefix`),
and the external widget-resolution environment used by `getInputWidget`
(`component.getMultiAdapter((field, request), IInputWidget/IDisplayWidget)`
and `form_field.custom_widget(field, request)`, each resolved per item). -/
structure Formatter where
  request : Request
  pfx : String
  inputWidgetOf : Item → Widget
  displayWidgetOf : Item → Widget
  customWidgetOf : Item → Widget

/-- The mutable world: each item's stored field value (`field.get`/`set` on
the item), the formatter's request-scoped annotation mapping
(`formatter.annotations`; this module only ever stores the boolean `True`),
and a ghost log of the `set()` calls performed, in order. -/
structure St where
  store : Item → Value
  annots : String → Option Bool
  setLog : List (Item × Value)

/-! ## `toSafe` and the safe-id encoding -/

/-- A character matched by `\w` in a Python 2 pattern with default flags:
`[a-zA-Z0-9_]`. -/
def pyWordChar (c : Char) : Bool :=
  ('a' ≤ c && c ≤ 'z') || ('A' ≤ c && c ≤ 'Z') || ('0' ≤ c && c ≤ '9') || c = '_'

/-- A character of the class `[\w +/]` of the `isSafe` pattern. -/
def pySafeChar (c : Char) : Bool :=
  pyWordChar c || c = ' ' || c = '+' || c = '/'

/-- `isSafe = re.compile(r'[\w +/]*$').match`: the match succeeds iff the
whole string consists of safe characters, or everything up to a single
trailing newline does (Python `$` also matches just before a newline at the
end of the string). -/
def isSafe (s : String) : Bool :=
  s.data.all pySafeChar ||
    (s.data.getLast? = some '\n' && s.data.dropLast.all pySafeChar)

/-- The base64 alphabet. -/
def b64chars : List Char :=
  "ABCDEFGHIJKLMNOPQRSTUVWXYZabcdefghijklmnopqrstuvwxyz0123456789+/".data

/-- The alphabet character of a sextet. -/
def sextet (n : Nat) : Char := b64chars.getD n 'A'

/-- Index of a character in the base64 alphabet, for decoding. -/
def sextetInv (c : Char) : Option Nat := b64chars.indexOf? c

/-- Plain base64 of a byte list (no line breaks): 3 bytes become 4 alphabet
characters; a 1- or 2-byte tail is padded with `=`. -/
def b64encode : List Nat → List Char
  | [] => []
  | [a] => [sextet (a / 4), sextet (a % 4 * 16), '=', '=']
  | [a, b] => [sextet (a / 4), sextet (a % 4 * 16 + b / 16), sextet (b % 16 * 4), '=']
  | a :: b :: c :: rest =>
    sextet (a / 4) :: sextet (a % 4 * 16 + b / 16) :: sextet (b % 16 * 4 + c / 64) ::
      sextet (c % 64) :: b64encode rest

/-- Python 2's `str.encode('base64')` (the MIME base64 codec,
`base64.encodestring`): the input is processed in chunks of 57 bytes, each
encoded and terminated by a newline.  The first argument is structural fuel,
always instantiated with the length of the byte list. -/
def encodeLines : Nat → List Nat → List Char
  | _, [] => []
  | 0, _ => []
  | fuel + 1, l => b64encode (l.take 57) ++ '\n' :: encodeLines fuel (l.drop 57)

/-- `bs.encode('base64')` on a Python 2 byte string `bs`. -/
def pyBase64Encode (bs : List Nat) : List Char := encodeLines bs.length bs

/-- A character Python 2 `str.split()` (no arguments) splits on. -/
def pySpace (c : Char) : Bool :=
  c = ' ' || c = '\t' || c = '\n' || c = '\r' || c = '\x0b' || c = '\x0c'

/-- `''.join(t.split())`: removes every whitespace character. -/
def stripWS (l : List Char) : List Char := l.filter (fun c => !pySpace c)

/-- `toSafe`: return the string unchanged when `isSafe` matches, else base64
encode it (Python 2 `str.encode('base64')`) and strip all whitespace. -/
def toSafe (s : String) : String :=
  if isSafe s then s
  else String.mk (stripWS (pyBase64Encode (s.data.map Char.toNat)))

/-- A decoder for `toSafe`'s encoded branch: 4 alphabet characters become 3
bytes; `=`-padded tails become 1 or 2 bytes. -/
def b64decode : List Char → Option (List Nat)
  | [] => some []
  | c1 :: c2 :: c3 :: c4 :: rest =>
    match sextetInv c1, sextetInv c2 with
    | some s1, some s2 =>
      if c4 = '=' then
        if rest = [] then
          if c3 = '=' then some [s1 * 4 + s2 / 16]
          else
            match sextetInv c3 with
            | some s3 => some [s1 * 4 + s2 / 16, s2 % 16 * 16 + s3 / 4]
            | none => none
        else none
      else
        match sextetInv c3, sextetInv c4 with
        | some s3, some s4 =>
          (b64decode rest).map
            (fun bs => (s1 * 4 + s2 / 16) :: (s2 % 16 * 16 + s3 / 4) :: (s3 % 4 * 64 + s4) :: bs)
        | _, _ => none
    | _, _ => none
  | _ => none

/-- String-level decoder for `toSafe`'s encoded branch. -/
def b64decodeStr (t : String) : Option String :=
  (b64decode t.data).map (fun bs => String.mk (bs.map Char.ofNat))

/-! ## Columns -/

/-- `zc.table.column.Column` as observed here: a title and a name. -/
structure BaseColumn where
  title : String
  name : String

/-- The form-field wrapper (`zope.formlib.form.FormField`) as observed by
`getInputWidget`: read-only flag of the schema field, `for_display` flag,
optional field-level sub-prefix (`form_field.prefix`), and whether a custom
widget factory is configured. -/
structure FormField where
  fieldReadonly : Bool
  forDisplay : Bool
  subPfx : Option String
  hasCustomWidget : Bool

/-- `FieldColumn`: a column bound to a form field. -/
structure FieldColumn extends BaseColumn where
  field : FormField

/-- `SubmitColumn`: a column rendering a submit control. -/
structure SubmitColumn extends BaseColumn

/-- `BaseColumn.getId`: `toSafe(str(item))`. -/
def BaseColumn.getId (_col : BaseColumn) (item : Item) (_f : Formatter) : String :=
  toSafe item.itemRepr

/-- `BaseColumn.getPrefix`: the item id, joined under the formatter's prefix
when that is nonempty (Python truthiness of the prefix string). -/
def BaseColumn.getPfx (col : BaseColumn) (item : Item) (f : Formatter) : String :=
  let p := col.getId item f
  if f.pfx ≠ "" then f.pfx ++ "." ++ p else p

/-- `BaseColumn.key` for a `FieldColumn`:
`'%s.%s.%s' % (module, class name, column name)`. -/
def FieldColumn.key (col : FieldColumn) : String :=
  "zc.table.fieldcolumn" ++ "." ++ "FieldColumn" ++ "." ++ col.name

/-- `setAnnotation` (from the source's `BaseColumn`): store under
`self.key + name` in the formatter's annotation mapping, which lives in the
state record. -/
def FieldColumn.setAnnot (col : FieldColumn) (n : String) (v : Bool) (_f : Formatter)
    (st : St) : St :=
  { st with annots := Function.update st.annots (col.key ++ n) (some v) }

/-- `getAnnotation` (from the source's `BaseColumn`): read `self.key + name`
from the formatter's annotation mapping, default `None`. -/
def FieldColumn.getAnnot (col : FieldColumn) (n : String) (_f : Formatter)
    (st : St) : Option Bool :=
  st.annots (col.key ++ n)

/-- `FieldColumn.getInputWidget`: resolve the widget for the item — via the
custom widget factory when configured, else via multi-adapter lookup on the
display interface (when the field is read-only or `for_display` is set) or
the input interface — and install the composed prefix on it.  The default
`getFieldContext` returns `None`, so no per-item field binding occurs. -/
def FieldColumn.getInputWidget (col : FieldColumn) (item : Item) (f : Formatter) : Widget :=
  let p0 := BaseColumn.getPfx col.toBaseColumn item f
  let w :=
    if col.field.hasCustomWidget then f.customWidgetOf item
    else if col.field.fieldReadonly || col.field.forDisplay then f.displayWidgetOf item
    else f.inputWidgetOf item
  let p := match col.field.subPfx with
    | some sub => p0 ++ "." ++ sub
    | none => p0
  w.setPfx p

/-- `FieldColumn.get`: `self.field.field.get(item)`, a read of the item's
stored field value. -/
def FieldColumn.get (_col : FieldColumn) (item : Item) (_f : Formatter) (st : St) : Value :=
  st.store item

/-- `FieldColumn.set`: `self.field.field.set(item, value)`; also appends to
the ghost log of `set()` calls. -/
def FieldColumn.set (_col : FieldColumn) (item : Item) (v : Value) (_f : Formatter)
    (st : St) : St :=
  { st with store := Function.update st.store item v, setLog := st.setLog ++ [(item, v)] }

/-- `FieldColumn.getRenderWidget`: obtain the input widget; when the explicit
flag is set, or the widget is display-only, or it reports no submitted input,
overwrite its rendered value with the current field value. -/
def FieldColumn.getRenderWidget (col : FieldColumn) (item : Item) (f : Formatter)
    (ignoreRequest : Bool) (st : St) : Widget :=
  let widget := col.getInputWidget item f
  if ignoreRequest || widget.isDisplay || !widget.hasInput then
    widget.setRenderedValue (col.get item f st)
  else widget

/-- The loop body of `FieldColumn.input`: accumulate the id-keyed mapping of
validated values and the list of collected `WidgetInputError`s, threading the
state (which no step writes). -/
def FieldColumn.inputLoop (col : FieldColumn) (f : Formatter) :
    List Item → (String → Option Value) → List WidgetInputError → St →
      ((String → Option Value) × List WidgetInputError) × St
  | [], data, errors, st => ((data, errors), st)
  | item :: rest, data, errors, st =>
    let widget := col.getInputWidget item f
    if widget.hasInput then
      match widget.inputValue with
      | Except.ok v =>
        FieldColumn.inputLoop col f rest
          (Function.update data (BaseColumn.getId col.toBaseColumn item f) (some v)) errors st
      | Except.error e =>
        FieldColumn.inputLoop col f rest data (errors ++ [e]) st
    else FieldColumn.inputLoop col f rest data errors st

/-- `FieldColumn.input`: process the whole batch, then raise the aggregate
`WidgetsError` when any per-item error was collected, else return the
mapping. -/
def FieldColumn.input (col : FieldColumn) (items : List Item) (f : Formatter) (st : St) :
    Except WidgetsError (String → Option Value) × St :=
  match FieldColumn.inputLoop col f items (fun _ => none) [] st with
  | ((data, errors), st2) =>
    if errors ≠ [] then (Except.error ⟨errors⟩, st2) else (Except.ok data, st2)

/-- The loop body of `FieldColumn.update`: for each item, look its id up in
`data` (the `data.get(id, self)` sentinel is the `Option` layer); when a
value was supplied and differs from the current field value, apply it via
`set()` and mark `changed`. -/
def FieldColumn.updateLoop (col : FieldColumn) (f : Formatter)
    (data : String → Option Value) :
    List Item → Bool → St → Bool × St
  | [], changed, st => (changed, st)
  | item :: rest, changed, st =>
    match data (BaseColumn.getId col.toBaseColumn item f) with
    | none => FieldColumn.updateLoop col f data rest changed st
    | some v =>
      if col.get item f st ≠ v then
        FieldColumn.updateLoop col f data rest true (col.set item v f st)
      else FieldColumn.updateLoop col f data rest changed st

/-- `FieldColumn.update`: run the loop; when anything changed, record the
column-scoped `changed` annotation; return whether anything changed. -/
def FieldColumn.update (col : FieldColumn) (items : List Item)
    (data : String → Option Value) (f : Formatter) (st : St) : Bool × St :=
  match FieldColumn.updateLoop col f data items false st with
  | (changed, st2) =>
    if changed then (changed, col.setAnnot "changed" true f st2) else (changed, st2)

/-- Python truthiness of the annotation value `getAnnotation` returns
(`None` default, or the stored boolean). -/
def truthy : Option Bool → Bool
  | none => false
  | some b => b

/-- `FieldColumn.renderCell`: read the column-scoped `changed` annotation as
the `ignore_request` argument and render the resolved widget. -/
def FieldColumn.renderCell (col : FieldColumn) (item : Item) (f : Formatter)
    (st : St) : String :=
  let ignoreRequest := col.getAnnot "changed" f st
  (col.getRenderWidget item f (truthy ignoreRequest) st).callRender

/-! ## SubmitColumn -/

/-- `xml.sax.saxutils.escape` with the entity set `quoteattr` installs:
`&`, `<`, `>` and then the newline, carriage-return and tab entities. -/
def pyEscape (s : String) : String :=
  (((((s.replace "&" "&amp;").replace "<" "&lt;").replace ">" "&gt;").replace
      "\n" "&#10;").replace "\r" "&#13;").replace "\t" "&#9;"

/-- `xml.sax.saxutils.quoteattr`: escape, then wrap in double quotes — or in
single quotes when the escaped text contains a double quote, falling back to
double quotes with `&quot;` when it contains both quote kinds. -/
def quoteattr (s : String) : String :=
  let d := pyEscape s
  if d.contains '"' then
    if d.contains '\'' then "\"" ++ d.replace "\"" "&quot;" ++ "\""
    else "'" ++ d ++ "'"
  else "\"" ++ d ++ "\""

/-- Python `sep.join(l)`. -/
def pyJoin (sep : String) : List String → String
  | [] => ""
  | a :: rest => rest.foldl (fun acc x => acc ++ sep ++ x) a

/-- `SubmitColumn.getIdentifier`: prefix plus column name. -/
def SubmitColumn.getIdentifier (col : SubmitColumn) (item : Item) (f : Formatter) : String :=
  BaseColumn.getPfx col.toBaseColumn item f ++ "." ++ col.name

/-- Modelled from the spec: `zc.table.column.Column.renderHeader` is not
under `src/` (only `zc.table.fieldcolumn` is); per the spec, the default
label taken from it is the column's header title. -/
def columnRenderHeader (col : BaseColumn) (_f : Formatter) : String := col.title

/-- `SubmitColumn.getLabel`: the inherited header rendering (the title). -/
def SubmitColumn.getLabel (col : SubmitColumn) (item : Item) (f : Formatter) : String :=
  let _ := item
  columnRenderHeader col.toBaseColumn f

/-- `SubmitColumn.renderWidget`: a self-closing `input` element of type
`submit`, name = identifier, value = label, followed by the extra
caller-supplied attributes, all attribute values escaped by `quoteattr`. -/
def SubmitColumn.renderWidget (col : SubmitColumn) (item : Item) (f : Formatter)
    (kwargs : List (String × String)) : String :=
  let res := kwargs.map (fun kv => kv.1 ++ "=" ++ quoteattr kv.2)
  let lbl := col.getLabel item f
  let res := "input" :: "type=\"submit\"" ::
    ("name=" ++ quoteattr (col.getIdentifier item f)) ::
    ("value=" ++ quoteattr lbl) :: res
  "<" ++ pyJoin " " res ++ " />"

/-- `SubmitColumn.input`: the first item whose identifier is a key of the
request's form mapping, else `None`. -/
def SubmitColumn.input (col : SubmitColumn) : List Item → Formatter → Option Item
  | [], _ => none
  | item :: rest, f =>
    if (f.request.form.lookup (col.getIdentifier item f)).isSome then some item
    else SubmitColumn.input col rest f

/-- `SubmitColumn.renderCell`: render the submit control with no extra
attributes. -/
def SubmitColumn.renderCell (col : SubmitColumn) (item : Item) (f : Formatter) : String :=
  col.renderWidget item f []

/-- `SubmitColumn.renderHeader`: empty. -/
def SubmitColumn.renderHeader (_col : SubmitColumn) (_f : Formatter) : String := ""

/-! ## Specification helpers for `update` -/

/-- The `(item, value)` pairs `update()` is expected to apply `set()` to,
relative to an initial store: the items whose id is present in `data` with a
value differing from the stored field value. -/
def FieldColumn.updateChanges (col : FieldColumn) (f : Formatter)
    (data : String → Option Value) (store : Item → Value) (items : List Item) :
    List (Item × Value) :=
  items.filterMap (fun item =>
    match data (BaseColumn.getId col.toBaseColumn item f) with
    | some v => if store item ≠ v then some (item, v) else none
    | none => none)

theorem FieldColumn.updateChanges_congr (col : FieldColumn) (f : Formatter)
    (data : String → Option Value) (s1 s2 : Item → Value) :
    ∀ (items : List Item), (∀ i ∈ items, s1 i = s2 i) →
      FieldColumn.updateChanges col f data s1 items =
        FieldColumn.updateChanges col f data s2 items := by
  intro items
  induction items with
  | nil => intro _; rfl
  | cons item rest ih =>
    intro h
    have hhead : s1 item = s2 item := h item (List.mem_cons_self item rest)
    have htail : ∀ i ∈ rest, s1 i = s2 i := fun i hi => h i (List.mem_cons_of_mem item hi)
    simp only [FieldColumn.updateChanges, List.filterMap_cons] at *
    rw [hhead, ih htail]

theorem FieldColumn.updateLoop_annots (col : FieldColumn) (f : Formatter)
    (data : String → Option Value) :
    ∀ (items : List Item) (changed : Bool) (st : St),
      ((FieldColumn.updateLoop col f data items changed st).2).annots = st.annots := by
  intro items
  induction items with
  | nil => intro changed st; rfl
  | cons item rest ih =>
    intro changed st
    simp only [FieldColumn.updateLoop]
    split
    · exact ih changed st
    · split
      · exact ih true _
      · exact ih changed st

theorem FieldColumn.updateLoop_setLog (col : FieldColumn) (f : Formatter)
    (data : String → Option Value) :
    ∀ (items : List Item), items.Nodup → ∀ (changed : Bool) (st : St),
      ((FieldColumn.updateLoop col f data items changed st).2).setLog =
        st.setLog ++ FieldColumn.updateChanges col f data st.store items := by
  intro items
  induction items with
  | nil => intro _ changed st; simp [FieldColumn.updateLoop, FieldColumn.updateChanges]
  | cons item rest ih =>
    intro hnd changed st
    have hni : item ∉ rest := (List.nodup_cons.mp hnd).1
    have hrest : rest.Nodup := (List.nodup_cons.mp hnd).2
    cases hd : data (BaseColumn.getId col.toBaseColumn item f) with
    | none =>
      simp only [FieldColumn.updateLoop, FieldColumn.updateChanges, List.filterMap_cons, hd]
      exact ih hrest changed st
    | some v =>
      simp only [FieldColumn.updateLoop, FieldColumn.updateChanges, List.filterMap_cons, hd,
        FieldColumn.get]
      split_ifs with hne
      · rw [ih hrest true (col.set item v f st)]
        have hstore : ∀ i ∈ rest, (col.set item v f st).store i = st.store i := by
          intro i hi
          show Function.update st.store item v i = st.store i
          apply Function.update_noteq
          rintro rfl
          exact hni hi
        rw [FieldColumn.updateChanges_congr col f data _ st.store rest hstore]
        show (st.setLog ++ [(item, v)]) ++ _ = _
        rw [List.append_assoc]
        rfl
      · exact ih hrest changed st

theorem FieldColumn.updateLoop_fst (col : FieldColumn) (f : Formatter)
    (data : String → Option Value) :
    ∀ (items : List Item), items.Nodup → ∀ (changed : Bool) (st : St),
      (FieldColumn.updateLoop col f data items changed st).1 =
        (changed || !(FieldColumn.updateChanges col f data st.store items).isEmpty) := by
  intro items
  induction items with
  | nil => intro _ changed st; simp [FieldColumn.updateLoop, FieldColumn.updateChanges]
  | cons item rest ih =>
    intro hnd changed st
    have hni : item ∉ rest := (List.nodup_cons.mp hnd).1
    have hrest : rest.Nodup := (List.nodup_cons.mp hnd).2
    cases hd : data (BaseColumn.getId col.toBaseColumn item f) with
    | none =>
      simp only [FieldColumn.updateLoop, FieldColumn.updateChanges, List.filterMap_cons, hd]
      exact ih hrest changed st
    | some v =>
      simp only [FieldColumn.updateLoop, FieldColumn.updateChanges, List.filterMap_cons, hd,
        FieldColumn.get]
      split_ifs with hne
      · rw [ih hrest true (col.set item v f st)]
        simp
      · exact ih hrest changed st

theorem FieldColumn.updateLoop_store_untouched (col : FieldColumn) (f : Formatter)
    (data : String → Option Value) :
    ∀ (items : List Item) (changed : Bool) (st : St) (i : Item),
      (i ∉ items ∨ data (BaseColumn.getId col.toBaseColumn i f) = none) →
      ((FieldColumn.updateLoop col f data items changed st).2).store i = st.store i := by
  intro items
  induction items with
  | nil => intro changed st i _; rfl
  | cons item rest ih =>
    intro changed st i hi
    have htail : i ∉ rest ∨ data (BaseColumn.getId col.toBaseColumn i f) = none := by
      rcases hi with hi | hi
      · exact Or.inl (fun hh => hi (List.mem_cons_of_mem item hh))
      · exact Or.inr hi
    simp only [FieldColumn.updateLoop]
    split
    · exact ih changed st i htail
    · rename_i v hd
      split
      · rename_i hne
        rw [ih true _ i htail]
        have hne' : i ≠ item := by
          intro hh
          rcases hi with hi | hi
          · exact hi (hh ▸ List.mem_cons_self item rest)
          · rw [hh, hd] at hi
            exact Option.noConfusion hi
        exact Function.update_noteq hne' v st.store
      · exact ih changed st i htail

theorem FieldColumn.updateLoop_store_keep (col : FieldColumn) (f : Formatter)
    (data : String → Option Value) :
    ∀ (items : List Item) (changed : Bool) (st : St) (i : Item) (v : Value),
      data (BaseColumn.getId col.toBaseColumn i f) = some v → st.store i = v →
      ((FieldColumn.updateLoop col f data items changed st).2).store i = v := by
  intro items
  induction items with
  | nil => intro changed st i v _ hv; exact hv
  | cons item rest ih =>
    intro changed st i v hd hv
    simp only [FieldColumn.updateLoop]
    split
    · exact ih changed st i v hd hv
    · rename_i w hw
      split
      · rename_i hne
        have hne' : i ≠ item := by
          intro hh
          subst hh
          rw [hd] at hw
          cases hw
          exact hne (hv ▸ rfl)
        refine ih true _ i v hd ?_
        show (Function.update st.store item w) i = v
        rw [Function.update_noteq hne' w st.store]
        exact hv
      · exact ih changed st i v hd hv

theorem FieldColumn.updateLoop_store_val (col : FieldColumn) (f : Formatter)
    (data : String → Option Value) :
    ∀ (items : List Item) (changed : Bool) (st : St) (i : Item) (v : Value),
      i ∈ items → data (BaseColumn.getId col.toBaseColumn i f) = some v →
      ((FieldColumn.updateLoop col f data items changed st).2).store i = v := by
  intro items
  induction items with
  | nil => intro changed st i v hi _; cases hi
  | cons item rest ih =>
    intro changed st i v hi hd
    rcases List.mem_cons.mp hi with hh | htail
    · subst hh
      simp only [FieldColumn.updateLoop]
      split
      · rename_i hnone
        rw [hd] at hnone
        exact absurd hnone (Option.noConfusion)
      · rename_i w hw
        rw [hd] at hw
        cases hw
        split
        · rename_i hne
          refine FieldColumn.updateLoop_store_keep col f data rest true _ i v hd ?_
          show (Function.update st.store i v) i = v
          exact Function.update_same i v st.store
        · rename_i hne
          refine FieldColumn.updateLoop_store_keep col f data rest changed st i v hd ?_
          exact Decidable.not_not.mp hne
    · simp only [FieldColumn.updateLoop]
      split
      · exact ih changed st i v htail hd
      · split
        · exact ih true _ i v htail hd
        · exact ih changed st i v htail hd

theorem FieldColumn.updateLoop_noop (col : FieldColumn) (f : Formatter)
    (data : String → Option Value) :
    ∀ (items : List Item) (changed : Bool) (st : St),
      (∀ i ∈ items, ∀ v : Value,
        data (BaseColumn.getId col.toBaseColumn i f) = some v → st.store i = v) →
      FieldColumn.updateLoop col f data items changed st = (changed, st) := by
  intro items
  induction items with
  | nil => intro changed st _; rfl
  | cons item rest ih =>
    intro changed st h
    have htail : ∀ i ∈ rest, ∀ v : Value,
        data (BaseColumn.getId col.toBaseColumn i f) = some v → st.store i = v :=
      fun i hi => h i (List.mem_cons_of_mem item hi)
    simp only [FieldColumn.updateLoop]
    split
    · exact ih changed st htail
    · rename_i v hd
      have heq : st.store item = v := h item (List.mem_cons_self item rest) v hd
      split
      · rename_i hne
        exact absurd heq hne
      · exact ih changed st htail

theorem FieldColumn.update_store (col : FieldColumn) (items : List Item)
    (data : String → Option Value) (f : Formatter) (st : St) :
    ((FieldColumn.update col items data f st).2).store =
      ((FieldColumn.updateLoop col f data items false st).2).store := by
  simp only [FieldColumn.update]
  split
  · rfl
  · rfl

theorem FieldColumn.update_setLog (col : FieldColumn) (items : List Item)
    (data : String → Option Value) (f : Formatter) (st : St) :
    ((FieldColumn.update col items data f st).2).setLog =
      ((FieldColumn.updateLoop col f data items false st).2).setLog := by
  simp only [FieldColumn.update]
  split
  · rfl
  · rfl

theorem FieldColumn.update_fst (col : FieldColumn) (items : List Item)
    (data : String → Option Value) (f : Formatter) (st : St) :
    (FieldColumn.update col items data f st).1 =
      (FieldColumn.updateLoop col f data items false st).1 := by
  simp only [FieldColumn.update]
  split
  · rfl
  · rfl

/-- C2: `update` applies `set()` to exactly the items whose id is present in
`data` with a value differing from the stored field value (the ghost set-log
extends by exactly those pairs), returns `true` iff at least one such item
exists, and leaves the stored value of every item that is not in the batch or
whose id is absent from `data` untouched; a present entry — including one
supplying `Value.vnone`, i.e. Python `None` — drives the item's stored value
to the supplied value. -/
theorem FieldColumn.update_exact_diffs (col : FieldColumn) (items : List Item)
    (data : String → Option Value) (f : Formatter) (st : St)
    (hnd : items.Nodup) :
    ((FieldColumn.update col items data f st).2).setLog =
        st.setLog ++ FieldColumn.updateChanges col f data st.store items ∧
    (FieldColumn.update col items data f st).1 =
        !(FieldColumn.updateChanges col f data st.store items).isEmpty ∧
    (∀ i : Item, i ∉ items ∨ data (BaseColumn.getId col.toBaseColumn i f) = none →
        ((FieldColumn.update col items data f st).2).store i = st.store i) ∧
    (∀ i ∈ items, ∀ v : Value, data (BaseColumn.getId col.toBaseColumn i f) = some v →
        ((FieldColumn.update col items data f st).2).store i = v) := by
  refine ⟨?_, ?_, ?_, ?_⟩
  · rw [FieldColumn.update_setLog]
    exact FieldColumn.updateLoop_setLog col f data items hnd false st
  · rw [FieldColumn.update_fst]
    rw [FieldColumn.updateLoop_fst col f data items hnd false st]
    simp
  · intro i hi
    rw [FieldColumn.update_store]
    exact FieldColumn.updateLoop_store_untouched col f data items false st i hi
  · intro i hi v hv
    rw [FieldColumn.update_store]
    exact FieldColumn.updateLoop_store_val col f data items false st i v hi hv

/-- C6: `update` with an empty data mapping changes nothing at all — it
returns `false` and leaves the state (stored field values, annotation
mapping and ghost set-log) exactly as it was, for every batch of items. -/
theorem FieldColumn.update_empty_data (col : FieldColumn) (items : List Item)
    (f : Formatter) (st : St) :
    FieldColumn.update col items (fun _ => none) f st = (false, st) := by
  have h := FieldColumn.updateLoop_noop col (f := f) (fun _ => none) items false st
    (by intro i _ v hv; exact absurd hv (Option.noConfusion))
  simp only [FieldColumn.update, h]
  simp

/-- C10: `update` is idempotent: immediately re-running `update` with the
same arguments on the state the first run produced performs no `set()` call,
records nothing, and returns `false`. -/
theorem FieldColumn.update_idempotent (col : FieldColumn) (items : List Item)
    (data : String → Option Value) (f : Formatter) (st : St) :
    FieldColumn.update col items data f (FieldColumn.update col items data f st).2 =
      (false, (FieldColumn.update col items data f st).2) := by
  have hval : ∀ i ∈ items, ∀ v : Value,
      data (BaseColumn.getId col.toBaseColumn i f) = some v →
      ((FieldColumn.update col items data f st).2).store i = v := by
    intro i hi v hv
    rw [FieldColumn.update_store]
    exact FieldColumn.updateLoop_store_val col f data items false st i v hi hv
  have h := FieldColumn.updateLoop_noop col (f := f) data items false
    (FieldColumn.update col items data f st).2 hval
  conv_lhs => rw [FieldColumn.update, h]
  simp

/-- C3: after an `update` call that reports a change, the column-scoped
`changed` annotation is recorded, and every subsequent `renderCell` on the
resulting state renders the widget with its rendered value overwritten by
the freshly stored field value obtained via `get` (the submitted input is
ignored). -/
theorem FieldColumn.update_changed_renders_fresh (col : FieldColumn) (items : List Item)
    (data : String → Option Value) (f : Formatter) (st : St)
    (h : (FieldColumn.update col items data f st).1 = true) :
    FieldColumn.getAnnot col "changed" f (FieldColumn.update col items data f st).2 =
        some true ∧
    ∀ item : Item,
      FieldColumn.renderCell col item f (FieldColumn.update col items data f st).2 =
        ((FieldColumn.getInputWidget col item f).setRenderedValue
          (FieldColumn.get col item f (FieldColumn.update col items data f st).2)).callRender := by
  have hann : FieldColumn.getAnnot col "changed" f
      (FieldColumn.update col items data f st).2 = some true := by
    rw [FieldColumn.update_fst] at h
    simp only [FieldColumn.update, h, if_true]
    show (col.setAnnot "changed" true f _).annots (col.key ++ "changed") = some true
    simp only [FieldColumn.setAnnot]
    exact Function.update_same _ _ _
  refine ⟨hann, ?_⟩
  intro item
  simp only [FieldColumn.renderCell, hann, truthy, FieldColumn.getRenderWidget,
    Bool.true_or, if_true]

/-- C7: `getRenderWidget` overwrites the obtained widget's rendered value
with the current field value from `get` exactly when the explicit flag is
set, or the widget is display-only, or the widget reports no submitted
input; otherwise the widget is returned unmodified. -/
theorem FieldColumn.getRenderWidget_overwrite_iff (col : FieldColumn) (item : Item)
    (f : Formatter) (ignoreRequest : Bool) (st : St) :
    ((ignoreRequest || (FieldColumn.getInputWidget col item f).isDisplay ||
        !(FieldColumn.getInputWidget col item f).hasInput) = true →
      FieldColumn.getRenderWidget col item f ignoreRequest st =
        (FieldColumn.getInputWidget col item f).setRenderedValue
          (FieldColumn.get col item f st)) ∧
    ((ignoreRequest || (FieldColumn.getInputWidget col item f).isDisplay ||
        !(FieldColumn.getInputWidget col item f).hasInput) = false →
      FieldColumn.getRenderWidget col item f ignoreRequest st =
        FieldColumn.getInputWidget col item f) := by
  constructor
  · intro h
    simp only [FieldColumn.getRenderWidget, h, if_true]
  · intro h
    simp only [FieldColumn.getRenderWidget, h, Bool.false_eq_true, if_false]

/-! ## Specification helpers for `input` -/

/-- The validation errors `input()` collects over a batch, in batch order:
one entry per input-bearing item whose `getInputValue()` fails. -/
def FieldColumn.inputErrors (col : FieldColumn) (f : Formatter) (items : List Item) :
    List WidgetInputError :=
  items.filterMap (fun item =>
    if (col.getInputWidget item f).hasInput then
      match (col.getInputWidget item f).inputValue with
      | Except.ok _ => none
      | Except.error e => some e
    else none)

/-- The id-keyed mapping `input()` accumulates over a batch: each
input-bearing item whose validation succeeds contributes its value under its
derived id. -/
def FieldColumn.inputData (col : FieldColumn) (f : Formatter)
    (data : String → Option Value) : List Item → String → Option Value
  | [] => data
  | item :: rest =>
    if (col.getInputWidget item f).hasInput then
      match (col.getInputWidget item f).inputValue with
      | Except.ok v =>
        FieldColumn.inputData col f
          (Function.update data (BaseColumn.getId col.toBaseColumn item f) (some v)) rest
      | Except.error _ => FieldColumn.inputData col f data rest
    else FieldColumn.inputData col f data rest

theorem FieldColumn.inputLoop_spec (col : FieldColumn) (f : Formatter) :
    ∀ (items : List Item) (data : String → Option Value)
      (errors : List WidgetInputError) (st : St),
      FieldColumn.inputLoop col f items data errors st =
        ((FieldColumn.inputData col f data items,
          errors ++ FieldColumn.inputErrors col f items), st) := by
  intro items
  induction items with
  | nil =>
    intro data errors st
    simp [FieldColumn.inputLoop, FieldColumn.inputData, FieldColumn.inputErrors]
  | cons item rest ih =>
    intro data errors st
    cases hw : (col.getInputWidget item f).hasInput with
    | false =>
      simp only [FieldColumn.inputLoop, FieldColumn.inputData, FieldColumn.inputErrors,
        List.filterMap_cons, hw, Bool.false_eq_true, if_false]
      exact ih data errors st
    | true =>
      cases hv : (col.getInputWidget item f).inputValue with
      | ok v =>
        simp only [FieldColumn.inputLoop, FieldColumn.inputData, FieldColumn.inputErrors,
          List.filterMap_cons, hw, hv, if_true]
        exact ih _ errors st
      | error e =>
        simp only [FieldColumn.inputLoop, FieldColumn.inputData, FieldColumn.inputErrors,
          List.filterMap_cons, hw, hv, if_true]
        rw [ih data (errors ++ [e]) st]
        simp [FieldColumn.inputErrors]

theorem FieldColumn.inputData_unset (col : FieldColumn) (f : Formatter) :
    ∀ (items : List Item) (data : String → Option Value) (k : String),
      (∀ i ∈ items, BaseColumn.getId col.toBaseColumn i f ≠ k) →
      FieldColumn.inputData col f data items k = data k := by
  intro items
  induction items with
  | nil => intro data k _; rfl
  | cons item rest ih =>
    intro data k h
    have htail : ∀ i ∈ rest, BaseColumn.getId col.toBaseColumn i f ≠ k :=
      fun i hi => h i (List.mem_cons_of_mem item hi)
    have hhead : BaseColumn.getId col.toBaseColumn item f ≠ k :=
      h item (List.mem_cons_self item rest)
    cases hw : (col.getInputWidget item f).hasInput with
    | false =>
      simp only [FieldColumn.inputData, hw, Bool.false_eq_true, if_false]
      exact ih data k htail
    | true =>
      cases hv : (col.getInputWidget item f).inputValue with
      | ok v =>
        simp only [FieldColumn.inputData, hw, hv, if_true]
        rw [ih _ k htail]
        exact Function.update_noteq (fun hh => hhead hh.symm) (some v) data
      | error e =>
        simp only [FieldColumn.inputData, hw, hv, if_true]
        exact ih data k htail

theorem FieldColumn.inputData_lookup (col : FieldColumn) (f : Formatter) :
    ∀ (items : List Item) (data : String → Option Value),
      (items.map fun i => BaseColumn.getId col.toBaseColumn i f).Nodup →
      ∀ item ∈ items, (col.getInputWidget item f).hasInput = true →
        ∀ v : Value, (col.getInputWidget item f).inputValue = Except.ok v →
          FieldColumn.inputData col f data items
            (BaseColumn.getId col.toBaseColumn item f) = some v := by
  intro items
  induction items with
  | nil => intro data _ item hi; cases hi
  | cons j rest ih =>
    intro data hnd item hi hw v hv
    rw [List.map_cons, List.nodup_cons] at hnd
    rcases List.mem_cons.mp hi with hh | htail
    · subst hh
      simp only [FieldColumn.inputData, hw, hv, if_true]
      rw [FieldColumn.inputData_unset col f rest _ _ ?notmem]
      · exact Function.update_same _ _ _
      case notmem =>
        intro i hmem heq
        exact hnd.1 (heq ▸ List.mem_map_of_mem (fun i => BaseColumn.getId col.toBaseColumn i f) hmem)
    · cases hw2 : (col.getInputWidget j f).hasInput with
      | false =>
        simp only [FieldColumn.inputData, hw2, Bool.false_eq_true, if_false]
        exact ih data hnd.2 item htail hw v hv
      | true =>
        cases hv2 : (col.getInputWidget j f).inputValue with
        | ok w =>
          simp only [FieldColumn.inputData, hw2, hv2, if_true]
          exact ih _ hnd.2 item htail hw v hv
        | error e =>
          simp only [FieldColumn.inputData, hw2, hv2, if_true]
          exact ih data hnd.2 item htail hw v hv

/-- C9: `input` performs only reads: the state — every item's stored field
value, the formatter's annotation mapping, and the ghost set-log — is
returned exactly as it was, both when the batch validates (the mapping is
returned) and when the aggregate error is raised. -/
theorem FieldColumn.input_state_unchanged (col : FieldColumn) (items : List Item)
    (f : Formatter) (st : St) :
    (FieldColumn.input col items f st).2 = st := by
  rw [FieldColumn.input, FieldColumn.inputLoop_spec]
  by_cases h : FieldColumn.inputErrors col f items = []
  · simp [h]
  · simp [h]

/-- C1: `input` collects per-item validation failures across the whole batch
and, if any occurred, fails with the single aggregate `WidgetsError` holding
exactly the collected failures (never failing fast); with items `[A, B]`
where `A` fails and `B` succeeds, the aggregate error holds exactly `A`'s
failure and `B`'s value is discarded.  When no failure occurs it returns the
mapping sending each input-bearing item's derived id to its validated
value. -/
theorem FieldColumn.input_aggregates_errors (col : FieldColumn) (items : List Item)
    (f : Formatter) (st : St) :
    (FieldColumn.inputErrors col f items ≠ [] →
      (FieldColumn.input col items f st).1 =
        Except.error ⟨FieldColumn.inputErrors col f items⟩) ∧
    (FieldColumn.inputErrors col f items = [] →
      (FieldColumn.input col items f st).1 =
        Except.ok (FieldColumn.inputData col f (fun _ => none) items)) ∧
    ((items.map fun i => BaseColumn.getId col.toBaseColumn i f).Nodup →
      ∀ item ∈ items, (FieldColumn.getInputWidget col item f).hasInput = true →
        ∀ v : Value, (FieldColumn.getInputWidget col item f).inputValue = Except.ok v →
          FieldColumn.inputData col f (fun _ => none) items
            (BaseColumn.getId col.toBaseColumn item f) = some v) ∧
    (∀ A B : Item, ∀ e : WidgetInputError, ∀ vB : Value,
      (FieldColumn.getInputWidget col A f).hasInput = true →
      (FieldColumn.getInputWidget col A f).inputValue = Except.error e →
      (FieldColumn.getInputWidget col B f).hasInput = true →
      (FieldColumn.getInputWidget col B f).inputValue = Except.ok vB →
      (FieldColumn.input col [A, B] f st).1 = Except.error ⟨[e]⟩) := by
  refine ⟨?_, ?_, ?_, ?_⟩
  · intro h
    rw [FieldColumn.input, FieldColumn.inputLoop_spec]
    simp only [List.nil_append]
    rw [if_pos h]
  · intro h
    rw [FieldColumn.input, FieldColumn.inputLoop_spec]
    simp only [List.nil_append]
    rw [if_neg (by simp [h])]
  · intro hnd item hi hw v hv
    exact FieldColumn.inputData_lookup col f items (fun _ => none) hnd item hi hw v hv
  · intro A B e vB hwA hvA hwB hvB
    have herr : FieldColumn.inputErrors col f [A, B] = [e] := by
      simp [FieldColumn.inputErrors, hwA, hvA, hwB, hvB]
    rw [FieldColumn.input, FieldColumn.inputLoop_spec]
    simp only [List.nil_append, herr]
    rw [if_pos (by simp)]

/-! ## SubmitColumn theorems -/

/-- C5: `SubmitColumn.input` returns `none` exactly when no item's
identifier is a key of the request's form mapping, and when it returns an
item, that item is the first in iteration order whose identifier is present:
every earlier item's identifier is absent. -/
theorem SubmitColumn.input_first_match (col : SubmitColumn) (f : Formatter) :
    ∀ items : List Item,
      (SubmitColumn.input col items f = none ↔
        ∀ item ∈ items,
          (f.request.form.lookup (col.getIdentifier item f)).isSome = false) ∧
      (∀ x : Item, SubmitColumn.input col items f = some x →
        ∃ l1 l2 : List Item, items = l1 ++ x :: l2 ∧
          (f.request.form.lookup (col.getIdentifier x f)).isSome = true ∧
          ∀ y ∈ l1, (f.request.form.lookup (col.getIdentifier y f)).isSome = false) := by
  intro items
  induction items with
  | nil =>
    refine ⟨⟨fun _ y hy => absurd hy (List.not_mem_nil y), fun _ => rfl⟩, ?_⟩
    intro x hx
    cases hx
  | cons item rest ih =>
    refine ⟨⟨?_, ?_⟩, ?_⟩
    · intro h y hy
      by_cases hp : (f.request.form.lookup (col.getIdentifier item f)).isSome = true
      · rw [SubmitColumn.input, if_pos hp] at h
        cases h
      · rw [SubmitColumn.input, if_neg hp] at h
        rcases List.mem_cons.mp hy with rfl | hmem
        · exact Bool.eq_false_iff.mpr hp
        · exact (ih.1.mp h) y hmem
    · intro h
      have hp : (f.request.form.lookup (col.getIdentifier item f)).isSome = false :=
        h item (List.mem_cons_self item rest)
      rw [SubmitColumn.input, if_neg (by simp [hp])]
      exact ih.1.mpr (fun y hy => h y (List.mem_cons_of_mem item hy))
    · intro x hx
      by_cases hp : (f.request.form.lookup (col.getIdentifier item f)).isSome = true
      · rw [SubmitColumn.input, if_pos hp] at hx
        obtain rfl : item = x := Option.some.inj hx
        exact ⟨[], rest, rfl, hp, fun y hy => absurd hy (List.not_mem_nil y)⟩
      · rw [SubmitColumn.input, if_neg hp] at hx
        obtain ⟨l1, l2, heq, hpx, hprev⟩ := ih.2 x hx
        refine ⟨item :: l1, l2, ?_, hpx, ?_⟩
        · rw [heq]
          rfl
        · intro y hy
          rcases List.mem_cons.mp hy with rfl | hmem
          · exact Bool.eq_false_iff.mpr hp
          · exact hprev y hmem

theorem String.join_cons_str (x : String) (xs : List String) :
    String.join (x :: xs) = x ++ String.join xs := by
  apply String.ext
  simp [String.join_eq, String.data_append]

theorem pyJoin_closed (sep : String) :
    ∀ (l : List String) (a : String),
      List.foldl (fun acc x => acc ++ sep ++ x) a l =
        a ++ String.join (l.map (fun x => sep ++ x)) := by
  intro l
  induction l with
  | nil => intro a; simp [String.join]
  | cons b t ih =>
    intro a
    rw [List.foldl_cons, ih (a ++ sep ++ b), List.map_cons, String.join_cons_str]
    rw [String.append_assoc, String.append_assoc, String.append_assoc]

/-- C8: `renderWidget` produces the self-closing submit input: type
`submit`, name = the item's identifier, value = the label from `getLabel`,
then the caller-supplied extra attributes in order, every attribute value
escaped by `quoteattr`. -/
theorem SubmitColumn.renderWidget_format (col : SubmitColumn) (item : Item)
    (f : Formatter) (kwargs : List (String × String)) :
    SubmitColumn.renderWidget col item f kwargs =
      "<input type=\"submit\" name=" ++ quoteattr (col.getIdentifier item f) ++
        " value=" ++ quoteattr (col.getLabel item f) ++
        String.join (kwargs.map (fun kv => " " ++ (kv.1 ++ "=" ++ quoteattr kv.2))) ++
        " />" := by
  rw [SubmitColumn.renderWidget]
  show "<" ++ pyJoin " " _ ++ " />" = _
  rw [pyJoin]
  rw [pyJoin_closed]
  have hmap : ∀ l : List (String × String),
      (l.map (fun kv => kv.1 ++ "=" ++ quoteattr kv.2)).map (fun x => " " ++ x) =
        l.map (fun kv => " " ++ (kv.1 ++ "=" ++ quoteattr kv.2)) := by
    intro l
    rw [List.map_map]
    rfl
  rw [List.map_cons, List.map_cons, List.map_cons, String.join_cons_str,
    String.join_cons_str, String.join_cons_str, hmap]
  apply String.ext
  simp [String.data_append]

/-! ## `toSafe` theorems -/

theorem b64chars_length : b64chars.length = 64 := by decide

theorem sextetInv_sextet : ∀ n < 64, sextetInv (sextet n) = some n := by decide

theorem sextet_ne_pad : ∀ n < 64, sextet n ≠ '=' := by decide

theorem pySpace_sextet_lt : ∀ n < 64, pySpace (sextet n) = false := by decide

theorem pySpace_sextet (n : Nat) : pySpace (sextet n) = false := by
  by_cases h : n < 64
  · exact pySpace_sextet_lt n h
  · rw [sextet, List.getD_eq_default]
    · rfl
    · rw [b64chars_length]
      exact Nat.le_of_not_lt h

theorem b64encode_not_space : ∀ (bs : List Nat), ∀ c ∈ b64encode bs, pySpace c = false
  | [], c, hc => absurd hc (List.not_mem_nil c)
  | [a], c, hc => by
    simp only [b64encode, List.mem_cons, List.not_mem_nil, or_false] at hc
    rcases hc with rfl | rfl | rfl | rfl
    · exact pySpace_sextet _
    · exact pySpace_sextet _
    · rfl
    · rfl
  | [a, b], c, hc => by
    simp only [b64encode, List.mem_cons, List.not_mem_nil, or_false] at hc
    rcases hc with rfl | rfl | rfl | rfl
    · exact pySpace_sextet _
    · exact pySpace_sextet _
    · exact pySpace_sextet _
    · rfl
  | a :: b :: d :: rest, c, hc => by
    simp only [b64encode, List.mem_cons] at hc
    rcases hc with rfl | rfl | rfl | rfl | hc
    · exact pySpace_sextet _
    · exact pySpace_sextet _
    · exact pySpace_sextet _
    · exact pySpace_sextet _
    · exact b64encode_not_space rest c hc

theorem stripWS_b64encode (bs : List Nat) : stripWS (b64encode bs) = b64encode bs := by
  apply List.filter_eq_self.mpr
  intro c hc
  rw [b64encode_not_space bs c hc]
  rfl

theorem b64encode_append :
    ∀ (xs ys : List Nat), xs.length % 3 = 0 →
      b64encode (xs ++ ys) = b64encode xs ++ b64encode ys
  | [], ys, _ => rfl
  | [a], ys, h => by simp at h
  | [a, b], ys, h => by simp at h
  | a :: b :: c :: rest, ys, h => by
    have hr : rest.length % 3 = 0 := by
      simp only [List.length_cons] at h
      omega
    show b64encode (a :: b :: c :: (rest ++ ys)) = _
    simp only [b64encode, List.cons_append]
    rw [b64encode_append rest ys hr]

theorem encodeLines_strip :
    ∀ (fuel : Nat) (bs : List Nat), bs.length ≤ fuel →
      stripWS (encodeLines fuel bs) = b64encode bs := by
  intro fuel
  induction fuel with
  | zero =>
    intro bs h
    have : bs = [] := List.eq_nil_of_length_eq_zero (Nat.le_zero.mp h)
    subst this
    rfl
  | succ n ih =>
    intro bs h
    cases bs with
    | nil => rfl
    | cons x xs =>
      show stripWS (b64encode ((x :: xs).take 57) ++ '\n' :: encodeLines n ((x :: xs).drop 57)) = _
      rw [stripWS, List.filter_append]
      show stripWS (b64encode ((x :: xs).take 57)) ++
        List.filter (fun c => !pySpace c) ('\n' :: encodeLines n ((x :: xs).drop 57)) = _
      rw [List.filter_cons]
      have hnl : (!pySpace '\n') = false := rfl
      rw [hnl]
      simp only [Bool.false_eq_true, if_false]
      rw [stripWS_b64encode]
      have hdrop : ((x :: xs).drop 57).length ≤ n := by
        rw [List.length_drop]
        simp only [List.length_cons] at h ⊢
        omega
      rw [show List.filter (fun c => !pySpace c) (encodeLines n ((x :: xs).drop 57)) =
            stripWS (encodeLines n ((x :: xs).drop 57)) from rfl,
        ih ((x :: xs).drop 57) hdrop]
      by_cases hlen : (x :: xs).length ≤ 57
      · rw [List.take_of_length_le hlen, List.drop_eq_nil_of_le hlen]
        simp [b64encode]
      · rw [← b64encode_append ((x :: xs).take 57) ((x :: xs).drop 57) ?hmod,
          List.take_append_drop]
        case hmod =>
          rw [List.length_take]
          have : ¬ (x :: xs).length ≤ 57 := hlen
          omega

theorem stripWS_pyBase64Encode (bs : List Nat) :
    stripWS (pyBase64Encode bs) = b64encode bs :=
  encodeLines_strip bs.length bs (Nat.le_refl _)

theorem b64decode_encode :
    ∀ bs : List Nat, (∀ b ∈ bs, b < 256) → b64decode (b64encode bs) = some bs
  | [], _ => rfl
  | [a], h => by
    have ha : a < 256 := h a (by simp)
    have i1 := sextetInv_sextet (a / 4) (by omega)
    have i2 := sextetInv_sextet (a % 4 * 16) (by omega)
    simp only [b64encode, b64decode, i1, i2, eq_self_iff_true, if_true]
    have : a / 4 * 4 + a % 4 * 16 / 16 = a := by omega
    rw [this]
  | [a, b], h => by
    have ha : a < 256 := h a (by simp)
    have hb : b < 256 := h b (by simp)
    have i1 := sextetInv_sextet (a / 4) (by omega)
    have i2 := sextetInv_sextet (a % 4 * 16 + b / 16) (by omega)
    have i3 := sextetInv_sextet (b % 16 * 4) (by omega)
    have hne : sextet (b % 16 * 4) ≠ '=' := sextet_ne_pad _ (by omega)
    have e1 : a / 4 * 4 + (a % 4 * 16 + b / 16) / 16 = a := by omega
    have e2 : (a % 4 * 16 + b / 16) % 16 * 16 + b % 16 * 4 / 4 = b := by omega
    simp only [b64encode, b64decode, i1, i2, i3, if_neg hne, e1, e2,
      eq_self_iff_true, if_true]
  | a :: b :: c :: rest, h => by
    have ha : a < 256 := h a (by simp)
    have hb : b < 256 := h b (by simp)
    have hc : c < 256 := h c (by simp)
    have hrest : ∀ x ∈ rest, x < 256 := fun x hx => h x (by simp [hx])
    have ih := b64decode_encode rest hrest
    have i1 := sextetInv_sextet (a / 4) (by omega)
    have i2 := sextetInv_sextet (a % 4 * 16 + b / 16) (by omega)
    have i3 := sextetInv_sextet (b % 16 * 4 + c / 64) (by omega)
    have i4 := sextetInv_sextet (c % 64) (by omega)
    have hne : sextet (c % 64) ≠ '=' := sextet_ne_pad _ (by omega)
    simp only [b64encode, b64decode, i1, i2, i3, i4, if_neg hne, ih, Option.map_some']
    have e1 : a / 4 * 4 + (a % 4 * 16 + b / 16) / 16 = a := by omega
    have e2 : (a % 4 * 16 + b / 16) % 16 * 16 + (b % 16 * 4 + c / 64) / 4 = b := by omega
    have e3 : (b % 16 * 4 + c / 64) % 4 * 64 + c % 64 = c := by omega
    rw [e1, e2, e3]

/-- The fully anchored character-class pattern the claim describes: every
character of the string is a word character, space, `+` or `/`. -/
def claimSafePattern (s : String) : Bool := s.data.all pySafeChar

/-- C4 counterexample: `"a\n"` does not match the fully anchored pattern,
yet `toSafe` returns it unchanged — it is not an encoding with all
whitespace stripped (it still contains the newline).  Python's `$` also
matches before a single trailing newline, so `isSafe` accepts it. -/
theorem toSafe_claim_counterexample :
    claimSafePattern "a\n" = false ∧ toSafe "a\n" = "a\n" ∧
      (("a\n".data.all fun c => !pySpace c) = false) ∧ isSafe "a\n" = true := by
  refine ⟨by decide, ?_, by decide, by decide⟩
  rw [toSafe, if_pos (by decide)]

/-- C4 (amended): for byte strings, `toSafe` returns the string unchanged
exactly when `isSafe` matches — the whole string is word characters, space,
`+`, `/`, *or everything up to a single trailing newline is* (Python `$`
semantics); otherwise it returns a decodable (reversible) whitespace-free
base64 encoding.  `toSafe` is not idempotent (witness `"="`), and
`BaseColumn.getId` is `toSafe` of the item's string conversion. -/
theorem toSafe_spec :
    (∀ s : String, (∀ c ∈ s.data, c.toNat < 256) →
      (isSafe s = true → toSafe s = s) ∧
      (isSafe s = false →
        b64decodeStr (toSafe s) = some s ∧
          ((toSafe s).data.all fun c => !pySpace c) = true)) ∧
    toSafe (toSafe "=") ≠ toSafe "=" ∧
    (∀ (col : BaseColumn) (item : Item) (f : Formatter),
      BaseColumn.getId col item f = toSafe item.itemRepr) := by
  refine ⟨?_, by decide, fun _ _ _ => rfl⟩
  intro s hbytes
  constructor
  · intro hsafe
    rw [toSafe, if_pos hsafe]
  · intro hxsafe
    have htos : toSafe s = String.mk (b64encode (s.data.map Char.toNat)) := by
      rw [toSafe, if_neg (by simp [hxsafe]), pyBase64Encode, show
        stripWS (encodeLines (s.data.map Char.toNat).length (s.data.map Char.toNat)) =
          stripWS (pyBase64Encode (s.data.map Char.toNat)) from rfl,
        stripWS_pyBase64Encode]
    have hbound : ∀ b ∈ s.data.map Char.toNat, b < 256 := by
      intro b hb
      obtain ⟨ch, hch, rfl⟩ := List.mem_map.mp hb
      exact hbytes ch hch
    constructor
    · rw [htos, b64decodeStr]
      show (b64decode (b64encode (s.data.map Char.toNat))).map _ = some s
      rw [b64decode_encode _ hbound, Option.map_some']
      congr 1
      apply String.ext
      show (s.data.map Char.toNat).map Char.ofNat = s.data
      have hcomp : Char.ofNat ∘ Char.toNat = id := funext Char.ofNat_toNat
      rw [List.map_map, hcomp, List.map_id]
    · rw [htos]
      apply List.all_eq_true.mpr
      intro ch hch
      have : pySpace ch = false :=
        b64encode_not_space (s.data.map Char.toNat) ch hch
      rw [this]
      rfl

/-- C4 witness at the concrete unsafe input `"a=b"`. -/
theorem toSafe_spec_witness :
    b64decodeStr (toSafe "a=b") = some "a=b" ∧
      (("a=b".data.all fun c => c.toNat < 256) = true) ∧ isSafe "a=b" = false :=
  ⟨((toSafe_spec.1 "a=b" (by decide)).2 (by decide)).1, by decide, by decide⟩

/-! ## Concrete fixtures and witnesses -/

/-- A widget reporting no submitted input. -/
def wNoInput : Widget :=
  { hasInput := false, inputValue := Except.ok Value.vnone, isDisplay := false,
    renderedValue := none, widgetPfx := "", renderFn := fun _ => "markup" }

/-- A widget whose submitted value fails validation. -/
def wErrA : Widget :=
  { wNoInput with hasInput := true, inputValue := Except.error ⟨"bad"⟩ }

/-- A widget whose submitted value validates to the integer 7. -/
def wOkB : Widget :=
  { wNoInput with hasInput := true, inputValue := Except.ok (Value.vint 7) }

def itemA : Item := ⟨"a"⟩

def itemB : Item := ⟨"b"⟩

def fmtW : Formatter :=
  { request := ⟨[("b.sub", "clicked")]⟩, pfx := "",
    inputWidgetOf := fun i => if i = itemA then wErrA else wOkB,
    displayWidgetOf := fun _ => wNoInput,
    customWidgetOf := fun _ => wNoInput }

def colW : FieldColumn :=
  { title := "T", name := "n",
    field := { fieldReadonly := false, forDisplay := false, subPfx := none,
               hasCustomWidget := false } }

def subColW : SubmitColumn := { title := "T", name := "sub" }

def stW : St := { store := fun _ => Value.vnone, annots := fun _ => none, setLog := [] }

/-- Initial store giving `itemA` the integer 1. -/
def stW2 : St :=
  { store := fun i => if i = itemA then Value.vint 1 else Value.vnone,
    annots := fun _ => none, setLog := [] }

def dataW : String → Option Value := fun k => if k = "a" then some (Value.vint 3) else none

/-- A data mapping supplying Python `None` for `itemA`'s id — a supplied
value, distinct from absence. -/
def dataNoneW : String → Option Value :=
  fun k => if k = "a" then some Value.vnone else none

/-- C1 witness: with `itemA` failing validation and `itemB` succeeding, the
batch raises the aggregate error holding exactly `itemA`'s failure. -/
theorem input_aggregates_errors_witness :
    (FieldColumn.input colW [itemA, itemB] fmtW stW).1 =
      Except.error ⟨[⟨"bad"⟩]⟩ :=
  (FieldColumn.input_aggregates_errors colW [itemA, itemB] fmtW stW).2.2.2
    itemA itemB ⟨"bad"⟩ (Value.vint 7) (by decide) rfl (by decide) rfl

/-- C2 witness: on distinct items, with `itemA`'s id supplied the value
`None` (differing from its stored integer) and `itemB`'s id absent, the
set-log extends by exactly that one pair. -/
theorem update_exact_diffs_witness :
    ((FieldColumn.update colW [itemA, itemB] dataNoneW fmtW stW2).2).setLog =
      stW2.setLog ++
        FieldColumn.updateChanges colW fmtW dataNoneW stW2.store [itemA, itemB] :=
  (FieldColumn.update_exact_diffs colW [itemA, itemB] dataNoneW fmtW stW2 (by decide)).1

/-- C3 witness: a changing `update` records the `changed` annotation. -/
theorem update_changed_renders_fresh_witness :
    FieldColumn.getAnnot colW "changed" fmtW
      (FieldColumn.update colW [itemA] dataW fmtW stW).2 = some true :=
  (FieldColumn.update_changed_renders_fresh colW [itemA] dataW fmtW stW (by decide)).1

/-- C5 witness: with only `itemB`'s identifier in the form, `input` returns
`itemB`, and the decomposition shows every earlier item's identifier is
absent. -/
theorem input_first_match_witness :
    ∃ l1 l2 : List Item, [itemA, itemB] = l1 ++ itemB :: l2 ∧
      (fmtW.request.form.lookup (subColW.getIdentifier itemB fmtW)).isSome = true ∧
      ∀ y ∈ l1, (fmtW.request.form.lookup (subColW.getIdentifier y fmtW)).isSome = false :=
  (SubmitColumn.input_first_match subColW fmtW [itemA, itemB]).2 itemB (by decide)

/-- C7 witness: with the explicit flag set, the rendered value is
overwritten with the current field value. -/
theorem getRenderWidget_overwrite_iff_witness :
    FieldColumn.getRenderWidget colW itemA fmtW true stW =
      (FieldColumn.getInputWidget colW itemA fmtW).setRenderedValue
        (FieldColumn.get colW itemA fmtW stW) :=
  (FieldColumn.getRenderWidget_overwrite_iff colW itemA fmtW true stW).1 (by decide)

end ZcTable
